import Mathlib

/-!
Verification of the GongAntiGravity transcript-coaching core against its
natural-language specification.

The development shallowly embeds the Python modules `src/utils/parsers.py`,
`src/utils/text_analysis.py` and `src/utils/gemini_client.py` as executable
Lean definitions over `List Char` / `String`, `Nat`, `Int` and `Rat`, and
proves or refutes the frozen claims about them.

Embedding conventions
* Python `str` values are Lean `String`s; the character-level functions work
  on `String.data : List Char`.
* Unicode-sensitive Python predicates (`str.isspace`, `str.isdigit`, regex
  classes, `str.lower`, `str.splitlines`) are embedded on the character sets
  the repository's data can contain: the full ASCII/Latin-1 whitespace and
  line-break tables of CPython are reproduced exactly; `str.isdigit` and the
  regex class `\d` are embedded as the decimal digits 0-9 and `str.lower`
  as ASCII case mapping (the exotic Unicode members of those classes are
  outside the model).
* `json.loads` is embedded as an exact recursive-descent parser for the
  grammar CPython's `json` module accepts (including `NaN`/`Infinity`
  constants, strict string escapes and last-wins duplicate object keys);
  numbers are held exactly as `Rat` where CPython would round fractional
  literals to binary doubles, and lone-surrogate `\u` escapes (which CPython
  can hold in a `str` but a Lean `String` cannot) are outside the model.
* The external completion service is a parameter: an `Except String String`
  value (or a function producing one) standing for the outcome of
  `model.generate_content` — `.ok text` for a response whose `.text` is
  `text`, `.error e` for a raised exception rendered as the message `e`.
* Python dicts are association lists in insertion order; `d[k] = v` keeps
  the position of an existing key and appends a fresh key, as in CPython.
-/

/-! ### CPython character tables -/

/-- The characters CPython's `str.isspace` (and hence `str.strip()`,
`str.split()` and the regex class `\s`) treats as whitespace. -/
def pySpace (c : Char) : Bool :=
  c.toNat = 9 || c.toNat = 10 || c.toNat = 11 || c.toNat = 12 || c.toNat = 13 ||
  c.toNat = 28 || c.toNat = 29 || c.toNat = 30 || c.toNat = 31 || c.toNat = 32 ||
  c.toNat = 133 || c.toNat = 160 || c.toNat = 5760 ||
  (8192 ≤ c.toNat && c.toNat ≤ 8202) ||
  c.toNat = 8232 || c.toNat = 8233 || c.toNat = 8239 || c.toNat = 8287 ||
  c.toNat = 12288

/-- The characters CPython's `str.splitlines` treats as a line boundary
(`\r\n` is additionally folded into one boundary below). -/
def pyLineBreak (c : Char) : Bool :=
  c.toNat = 10 || c.toNat = 11 || c.toNat = 12 || c.toNat = 13 ||
  c.toNat = 28 || c.toNat = 29 || c.toNat = 30 ||
  c.toNat = 133 || c.toNat = 8232 || c.toNat = 8233

/-- ASCII decimal digit, the embedding of `\d` and of the per-character
test of `str.isdigit`. -/
def pyDigit (c : Char) : Bool :=
  48 ≤ c.toNat && c.toNat ≤ 57

/-- ASCII case mapping, the embedding of `str.lower` per character. -/
def pyLowerChar (c : Char) : Char :=
  if 65 ≤ c.toNat && c.toNat ≤ 90 then Char.ofNat (c.toNat + 32) else c

/-! ### CPython string primitives on `List Char` -/

/-- `str.strip()` on a character list. -/
def stripL (l : List Char) : List Char :=
  ((l.dropWhile pySpace).reverse.dropWhile pySpace).reverse

/-- Python `str.splitlines()`: worker carrying the current line (reversed). -/
def splitlinesGo : List Char → List Char → List (List Char)
  | [], acc => if acc.isEmpty then [] else [acc.reverse]
  | c :: rest, acc =>
    if c.toNat = 13 then
      match rest with
      | d :: rest2 =>
        if d.toNat = 10 then acc.reverse :: splitlinesGo rest2 []
        else acc.reverse :: splitlinesGo (d :: rest2) []
      | [] => [acc.reverse]
    else if pyLineBreak c then acc.reverse :: splitlinesGo rest []
    else splitlinesGo rest (c :: acc)

/-- `str.splitlines()` on a character list. -/
def splitlinesL (l : List Char) : List (List Char) :=
  splitlinesGo l []

/-- `str.isdigit()` on a character list: nonempty and all digits. -/
def isdigitL (l : List Char) : Bool :=
  !l.isEmpty && l.all pyDigit

/-- `str.lower()` on a character list. -/
def lowerL (l : List Char) : List Char :=
  l.map pyLowerChar

/-- `sep.join(pieces)` for a one-character separator domain: the pieces
joined by the separator list. -/
def joinL (sep : List Char) (pieces : List (List Char)) : List Char :=
  List.intercalate sep pieces

/-- Python `str.split()` (no argument): worker. `cur` is the current token
(reversed), `none` when between tokens. -/
def pySplitGo : List Char → Option (List Char) → List (List Char)
  | [], none => []
  | [], some cur => [cur.reverse]
  | c :: rest, none =>
    if pySpace c then pySplitGo rest none else pySplitGo rest (some [c])
  | c :: rest, some cur =>
    if pySpace c then cur.reverse :: pySplitGo rest none
    else pySplitGo rest (some (c :: cur))

/-- `str.split()` on a character list: maximal runs of non-whitespace. -/
def pySplitL (l : List Char) : List (List Char) :=
  pySplitGo l none

/-- Whether `needle` occurs at the start of `haystack`. -/
def startsWithL : List Char → List Char → Bool
  | [], _ => true
  | _ :: _, [] => false
  | c :: cs, d :: ds => c = d && startsWithL cs ds

/-- Substring containment, `needle in haystack` for Python strings. -/
def containsSub (needle : List Char) : List Char → Bool
  | [] => startsWithL needle []
  | c :: rest => startsWithL needle (c :: rest) || containsSub needle rest

/-! ### src/utils/parsers.py — cue-timing regexes

The patterns `\d{2}:\d{2}:\d{2}[.,]\d{3}\s-->\s\d{2}:\d{2}:\d{2}[.,]\d{3}`
(with `.` for VTT, `,` for SRT) applied with `re.match`, i.e. anchored at
the start of the line only. -/

/-- Consume exactly `n` decimal digits. -/
def takeDigits : Nat → List Char → Option (List Char)
  | 0, l => some l
  | n + 1, c :: rest => if pyDigit c then takeDigits n rest else none
  | _ + 1, [] => none

/-- Consume one expected character. -/
def expectChar (c : Char) : List Char → Option (List Char)
  | d :: rest => if d = c then some rest else none
  | [] => none

/-- Consume `HH:MM:SS{sep}mmm`. -/
def takeTime (sep : Char) (l : List Char) : Option (List Char) :=
  (takeDigits 2 l).bind (expectChar ':') |>.bind (takeDigits 2)
    |>.bind (expectChar ':') |>.bind (takeDigits 2)
    |>.bind (expectChar sep) |>.bind (takeDigits 3)

/-- Consume one `\s` character. -/
def takeSpace : List Char → Option (List Char)
  | c :: rest => if pySpace c then some rest else none
  | [] => none

/-- `re.match` of the cue-timing pattern with millisecond separator `sep`:
true iff a prefix of the line matches. -/
def timingMatch (sep : Char) (l : List Char) : Bool :=
  (((((takeTime sep l).bind takeSpace).bind (expectChar '-')
      |>.bind (expectChar '-') |>.bind (expectChar '>')
      |>.bind takeSpace).bind (takeTime sep))).isSome

/-! ### src/utils/parsers.py — the parsers -/

/-- `parse_txt`: simply returns the content of a text file. -/
def parse_txt (content : String) : String :=
  content

/-- The header token filtered by `parse_vtt`. -/
def webvttToken : List Char := "WEBVTT".data

/-- Body of `parse_vtt` on a character list: the loop over
`content.splitlines()` accumulating kept stripped lines, then
`" ".join(...)`. -/
def parseVttL (content : List Char) : List Char :=
  let lines := splitlinesL content
  let text_content := lines.foldl (fun acc line =>
    if containsSub webvttToken line then acc
    else if stripL line = [] then acc
    else if timingMatch '.' line then acc
    else if isdigitL (stripL line) then acc
    else acc ++ [stripL line]) []
  joinL [' '] text_content

/-- `parse_vtt`: extracts spoken text from VTT content. -/
def parse_vtt (content : String) : String :=
  String.mk (parseVttL content.data)

/-- Body of `parse_srt` on a character list. -/
def parseSrtL (content : List Char) : List Char :=
  let lines := splitlinesL content
  let text_content := lines.foldl (fun acc line =>
    if stripL line = [] then acc
    else if isdigitL (stripL line) then acc
    else if timingMatch ',' line then acc
    else acc ++ [stripL line]) []
  joinL [' '] text_content

/-- `parse_srt`: extracts spoken text from SRT content. -/
def parse_srt (content : String) : String :=
  String.mk (parseSrtL content.data)

/-- `parse_transcript` after the byte decode: dispatch on the file
extension; unknown extensions raise `ValueError("Unsupported file format")`.
Returns `(clean_text, content)`. -/
def parse_transcript (content : String) (file_extension : String) :
    Except String (String × String) :=
  if file_extension = "txt" then .ok (parse_txt content, content)
  else if file_extension = "vtt" then .ok (parse_vtt content, content)
  else if file_extension = "srt" then .ok (parse_srt content, content)
  else .error "Unsupported file format"

/-! ### src/utils/text_analysis.py -/

/-- Banker's rounding of a rational to the nearest integer, the rounding
CPython's builtin `round` applies. -/
def roundHalfEven (q : Rat) : Int :=
  let f : Int := ⌊q⌋
  let frac : Rat := q - (f : Rat)
  if frac < 1/2 then f
  else if (1:Rat)/2 < frac then f + 1
  else if f % 2 = 0 then f else f + 1

/-- `round(q, 2)`: round to two decimal places. -/
def round2 (q : Rat) : Rat :=
  (roundHalfEven (q * 100) : Rat) / 100

/-- The metrics record produced by `calculate_metrics` (Python dict with
keys `word_count` and `estimated_duration_mins`). -/
structure Metrics where
  word_count : Nat
  estimated_duration_mins : Rat
deriving DecidableEq, Repr

/-- `calculate_metrics`: word count via `str.split()` and estimated
duration `round(word_count / 140, 2)`. The duration is held as an exact
rational; CPython computes it in binary floating point, which agrees with
the exact value on every comparison the claims make. -/
def calculate_metrics (transcript_text : String) : Metrics :=
  let words := pySplitL transcript_text.data
  let word_count := words.length
  { word_count := word_count
    estimated_duration_mins := round2 ((word_count : Rat) / 140) }

/-! ### src/utils/gemini_client.py — configuration constants -/

def DEFAULT_MODEL_NAME : String := "gemini-2.5-flash"

def BRAND_NAME : String := "Rachael Peffer"

def COACHING_STYLE : String := "timeless strategy, quiet power, direct feedback"

def COACH_TONE : String := "calm, concise, direct, quiet power; no hype"

/-! ### JSON values

Embedding of the values `json.loads` can produce.  Numbers are kept as the
exact decimal `m * 10 ^ e` read from the input (CPython stores `int` for
integer literals and a binary `double` otherwise; no claim observes the
difference).  `nan`, `inf` and `ninf` embed the `NaN` / `Infinity` /
`-Infinity` constants CPython's `json` accepts. -/

inductive JValue where
  | null
  | bool (b : Bool)
  | num (m : Int) (e : Int)
  | str (s : String)
  | arr (xs : List JValue)
  | obj (fs : List (String × JValue))
  | nan
  | inf
  | ninf
deriving Repr

/-- A Python dict with string keys in insertion order. -/
abbrev JObj := List (String × JValue)

/-- Dict lookup, `d.get(k)` / `k in d`. -/
def lookupJ : JObj → String → Option JValue
  | [], _ => none
  | (k, v) :: rest, key => if k = key then some v else lookupJ rest key

/-- Dict assignment `d[k] = v`: an existing key keeps its position (CPython
keeps the slot of the first insertion), a fresh key is appended. -/
def setJ : JObj → String → JValue → JObj
  | [], key, v => [(key, v)]
  | (k, w) :: rest, key, v =>
    if k = key then (key, v) :: rest else (k, w) :: setJ rest key v

/-! ### src/utils/gemini_client.py — `_strip_code_fences` -/

def backtickChar : Char := Char.ofNat 96

def obrace : Char := Char.ofNat 123

def cbrace : Char := Char.ofNat 125

/-- One pass of `re.sub(r"``` (?:json)?", "", cleaned, flags=IGNORECASE)`
(spaces added here to keep this comment plain text): scan left to right,
removing every occurrence of three backticks optionally followed by `json`
in any case.  The fuel argument only drives the recursion; every step
consumes at least one input character, so `length + 1` units never run
out. -/
def subFencesGo : Nat → List Char → List Char
  | 0, l => l
  | _ + 1, [] => []
  | _ + 1, [c] => [c]
  | _ + 1, [c, d] => [c, d]
  | fuel + 1, b1 :: b2 :: b3 :: rest =>
    if b1 = backtickChar && b2 = backtickChar && b3 = backtickChar then
      match rest with
      | j :: s :: o :: n :: rest2 =>
        if pyLowerChar j = 'j' && pyLowerChar s = 's' &&
            pyLowerChar o = 'o' && pyLowerChar n = 'n' then
          subFencesGo fuel rest2
        else subFencesGo fuel rest
      | _ => subFencesGo fuel rest
    else b1 :: subFencesGo fuel (b2 :: b3 :: rest)

def subFences (l : List Char) : List Char :=
  subFencesGo (l.length + 1) l

/-- `cleaned.replace("``` ", "")` (space added in this comment only):
remove every literal three-backtick occurrence, left to right. -/
def replaceTicksGo : Nat → List Char → List Char
  | 0, l => l
  | _ + 1, [] => []
  | _ + 1, [c] => [c]
  | _ + 1, [c, d] => [c, d]
  | fuel + 1, b1 :: b2 :: b3 :: rest =>
    if b1 = backtickChar && b2 = backtickChar && b3 = backtickChar then
      replaceTicksGo fuel rest
    else b1 :: replaceTicksGo fuel (b2 :: b3 :: rest)

def replaceTicks (l : List Char) : List Char :=
  replaceTicksGo (l.length + 1) l

/-- `_strip_code_fences`. -/
def strip_code_fences (text : List Char) : List Char :=
  if text.isEmpty then []
  else stripL (replaceTicks (subFences (stripL text)))

/-! ### src/utils/gemini_client.py — `_extract_first_json`

`re.search` of an opening brace, any characters, a closing brace: the match
exists iff the first opening brace precedes the last closing brace, and the
greedy match runs from that first opening brace to that last closing
brace. -/

/-- Index of the last occurrence of `c`, if any. -/
def lastIdxOf (c : Char) (l : List Char) : Option Nat :=
  match List.findIdx? (· = c) l.reverse with
  | some i => some (l.length - 1 - i)
  | none => none

/-- `_extract_first_json`: returns `(json_text, cleaned)`. -/
def extract_first_json (text : List Char) : List Char × List Char :=
  let cleaned := strip_code_fences text
  match List.findIdx? (· = obrace) cleaned, lastIdxOf cbrace cleaned with
  | some i, some j =>
    if i < j then (stripL ((cleaned.drop i).take (j - i + 1)), cleaned)
    else (stripL cleaned, cleaned)
  | _, _ => (stripL cleaned, cleaned)

/-! ### `json.loads` -/

/-- JSON inter-token whitespace (the exact set CPython's `json` skips). -/
def jsonWs (c : Char) : Bool :=
  c = ' ' || c = '\t' || c = '\n' || c = '\r'

def skipWs (l : List Char) : List Char :=
  l.dropWhile jsonWs

/-- Hexadecimal digit value. -/
def hexVal (c : Char) : Option Nat :=
  if pyDigit c then some (c.toNat - 48)
  else if 97 ≤ c.toNat && c.toNat ≤ 102 then some (c.toNat - 87)
  else if 65 ≤ c.toNat && c.toNat ≤ 70 then some (c.toNat - 55)
  else none

/-- Four hex digits. -/
def parseHex4 : List Char → Option (Nat × List Char)
  | a :: b :: c :: d :: rest =>
    match hexVal a, hexVal b, hexVal c, hexVal d with
    | some x, some y, some z, some w => some (((x * 16 + y) * 16 + z) * 16 + w, rest)
    | _, _, _, _ => none
  | _ => none

/-- Body of a JSON string after the opening quote, strict mode: raw control
characters are rejected, the standard escapes and `\uXXXX` (with surrogate
pairs combined) are decoded.  A lone surrogate — which CPython can keep in
a `str` but no Lean `String` can hold — is outside the model and rejected.
`acc` is the decoded prefix, reversed. -/
def parseStringBody : Nat → List Char → List Char → Option (List Char × List Char)
  | 0, _, _ => none
  | _ + 1, _, [] => none
  | fuel + 1, acc, c :: rest =>
    if c = '"' then some (acc.reverse, rest)
    else if c = '\\' then
      match rest with
      | [] => none
      | e :: rest2 =>
        if e = '"' then parseStringBody fuel ('"' :: acc) rest2
        else if e = '\\' then parseStringBody fuel ('\\' :: acc) rest2
        else if e = '/' then parseStringBody fuel ('/' :: acc) rest2
        else if e = 'b' then parseStringBody fuel (Char.ofNat 8 :: acc) rest2
        else if e = 'f' then parseStringBody fuel (Char.ofNat 12 :: acc) rest2
        else if e = 'n' then parseStringBody fuel (Char.ofNat 10 :: acc) rest2
        else if e = 'r' then parseStringBody fuel (Char.ofNat 13 :: acc) rest2
        else if e = 't' then parseStringBody fuel (Char.ofNat 9 :: acc) rest2
        else if e = 'u' then
          match parseHex4 rest2 with
          | none => none
          | some (n, rest3) =>
            if 55296 ≤ n && n ≤ 56319 then
              match rest3 with
              | u1 :: u2 :: rest4 =>
                if u1 = '\\' && u2 = 'u' then
                  match parseHex4 rest4 with
                  | some (mlo, rest5) =>
                    if 56320 ≤ mlo && mlo ≤ 57343 then
                      parseStringBody fuel
                        (Char.ofNat (65536 + (n - 55296) * 1024 + (mlo - 56320)) :: acc) rest5
                    else none
                  | none => none
                else none
              | _ => none
            else if 56320 ≤ n && n ≤ 57343 then none
            else parseStringBody fuel (Char.ofNat n :: acc) rest3
        else none
    else if c.toNat < 32 then none
    else parseStringBody fuel (c :: acc) rest

/-- Digit run to a natural number. -/
def digitsToNat (ds : List Char) : Nat :=
  ds.foldl (fun n c => n * 10 + (c.toNat - 48)) 0

/-- A JSON number per CPython's `NUMBER_RE`: optional minus, `0` or a
nonzero-led digit run, optional `.digits`, optional exponent.  The numeric
value is returned as `(mantissa, base-10 exponent)`. -/
def parseNumber (l : List Char) : Option (JValue × List Char) :=
  let signSplit : Bool × List Char :=
    match l with
    | c :: rest => if c = '-' then (true, rest) else (false, l)
    | [] => (false, l)
  let neg := signSplit.1
  match signSplit.2 with
  | [] => none
  | c :: rest =>
    if !pyDigit c then none
    else
      let intSplit : List Char × List Char :=
        if c = '0' then ([c], rest) else (c :: rest).span pyDigit
      let fracSplit : List Char × List Char :=
        match intSplit.2 with
        | dot :: r =>
          if dot = '.' then
            let ds := r.takeWhile pyDigit
            if ds.isEmpty then ([], intSplit.2) else (ds, r.dropWhile pyDigit)
          else ([], intSplit.2)
        | [] => ([], intSplit.2)
      let expSplit : Option Int × List Char :=
        match fracSplit.2 with
        | e :: r =>
          if e = 'e' || e = 'E' then
            let se : Bool × List Char :=
              match r with
              | s :: r2 => if s = '-' then (true, r2) else if s = '+' then (false, r2) else (false, r)
              | [] => (false, r)
            let ds := se.2.takeWhile pyDigit
            if ds.isEmpty then (none, fracSplit.2)
            else
              let v : Int := (digitsToNat ds : Int)
              (some (if se.1 then -v else v), se.2.dropWhile pyDigit)
          else (none, fracSplit.2)
        | [] => (none, fracSplit.2)
      let mAbs : Nat := digitsToNat (intSplit.1 ++ fracSplit.1)
      let m : Int := if neg then -(mAbs : Int) else (mAbs : Int)
      let e : Int := (match expSplit.1 with | some v => v | none => 0) - (fracSplit.1.length : Int)
      some (.num m e, expSplit.2)

/-- Object members, positioned at a key string, parameterised by the value
parser; duplicate keys behave as CPython dicts (first position, last
value). -/
def parseMembersHO (pv : List Char → Option (JValue × List Char)) :
    Nat → List Char → JObj → Option (JValue × List Char)
  | 0, _, _ => none
  | fuel + 1, l, acc =>
    match l with
    | [] => none
    | c :: rest =>
      if c = '"' then
        match parseStringBody (rest.length + 1) [] rest with
        | none => none
        | some (k, r1) =>
          match skipWs r1 with
          | d :: r2 =>
            if d = ':' then
              match pv r2 with
              | none => none
              | some (v, r3) =>
                let acc2 := setJ acc (String.mk k) v
                match skipWs r3 with
                | e :: r4 =>
                  if e = ',' then
                    match skipWs r4 with
                    | [] => none
                    | f :: r5 => parseMembersHO pv fuel (f :: r5) acc2
                  else if e = cbrace then some (.obj acc2, r4)
                  else none
                | [] => none
            else none
          | [] => none
      else none

/-- Array items, positioned at a value, parameterised by the value
parser. -/
def parseItemsHO (pv : List Char → Option (JValue × List Char)) :
    Nat → List Char → List JValue → Option (JValue × List Char)
  | 0, _, _ => none
  | fuel + 1, l, acc =>
    match pv l with
    | none => none
    | some (v, r1) =>
      match skipWs r1 with
      | c :: r2 =>
        if c = ',' then parseItemsHO pv fuel r2 (acc ++ [v])
        else if c = ']' then some (.arr (acc ++ [v]), r2)
        else none
      | [] => none

/-- One JSON value, positioned before optional leading whitespace. -/
def parseValue : Nat → List Char → Option (JValue × List Char)
  | 0, _ => none
  | fuel + 1, l =>
    match skipWs l with
    | [] => none
    | c :: rest =>
      if c = obrace then
        match skipWs rest with
        | d :: rest2 =>
          if d = cbrace then some (.obj [], rest2)
          else parseMembersHO (parseValue fuel) (fuel + 1) (d :: rest2) []
        | [] => none
      else if c = '[' then
        match skipWs rest with
        | d :: rest2 =>
          if d = ']' then some (.arr [], rest2)
          else parseItemsHO (parseValue fuel) (fuel + 1) (d :: rest2) []
        | [] => none
      else if c = '"' then
        match parseStringBody (rest.length + 1) [] rest with
        | some (s, r) => some (.str (String.mk s), r)
        | none => none
      else if startsWithL "true".data (c :: rest) then some (.bool true, (c :: rest).drop 4)
      else if startsWithL "false".data (c :: rest) then some (.bool false, (c :: rest).drop 5)
      else if startsWithL "null".data (c :: rest) then some (.null, (c :: rest).drop 4)
      else if startsWithL "NaN".data (c :: rest) then some (.nan, (c :: rest).drop 3)
      else if startsWithL "Infinity".data (c :: rest) then some (.inf, (c :: rest).drop 8)
      else if startsWithL "-Infinity".data (c :: rest) then some (.ninf, (c :: rest).drop 9)
      else parseNumber (c :: rest)


/-- `json.loads`: parse one value, then only whitespace may remain.  The
fuel is an upper bound on the recursion depth, which consumes at least one
character per unit; it is generous enough never to be the reason a parse
fails. -/
def json_loads (s : String) : Option JValue :=
  match parseValue (2 * s.data.length + 8) s.data with
  | some (v, rest) => if (skipWs rest).isEmpty then some v else none
  | none => none

/-! ### src/utils/gemini_client.py — `_ensure_analysis_keys` -/

/-- The `client_intent` default sub-record. -/
def intentDefaults : JObj :=
  [("occasion", .str ""),
   ("date_mentions", .arr []),
   ("decision_timing", .str ""),
   ("primary_motivation", .str "")]

/-- The `consult_scorecard` default sub-record. -/
def scorecardDefaults : JObj :=
  [("authority_and_leadership", .num 0 0),
   ("aesthetic_alignment", .num 0 0),
   ("constraint_setting", .num 0 0),
   ("package_pricing_clarity", .num 0 0),
   ("hesitation_handling", .num 0 0),
   ("decision_safety", .num 0 0),
   ("next_steps_locked", .num 0 0)]

/-- The top-level `defaults` dict, in source order. -/
def analysisDefaults : JObj :=
  [("summary", .str ""),
   ("topics", .arr []),
   ("sentiment_score", .num 0 0),
   ("strengths", .arr []),
   ("improvements", .arr []),
   ("coaching_tips", .arr []),
   ("client_intent", .obj intentDefaults),
   ("consult_scorecard", .obj scorecardDefaults),
   ("conversion_risks", .arr []),
   ("missed_questions", .arr []),
   ("recommended_micro_scripts", .arr []),
   ("timeline", .arr [])]

/-- `key not in data or data[key] is None`. -/
def needsFill (d : JObj) (k : String) : Bool :=
  match lookupJ d k with
  | none => true
  | some .null => true
  | some _ => false

/-- One iteration of the back-fill loop. -/
def fillKey (d : JObj) (kv : String × JValue) : JObj :=
  if needsFill d kv.1 then setJ d kv.1 kv.2 else d

/-- The back-fill loop over a defaults dict. -/
def fillAll (d : JObj) (ds : JObj) : JObj :=
  ds.foldl fillKey d

/-- The `client_intent` / `consult_scorecard` step: a non-dict value is
replaced by the default sub-record wholesale, a dict gets its own back-fill
loop over the sub-defaults. -/
def fixRecord (d : JObj) (key : String) (subDefaults : JObj) : JObj :=
  match lookupJ d key with
  | some (.obj sub) => setJ d key (.obj (fillAll sub subDefaults))
  | _ => setJ d key (.obj subDefaults)

/-- One `if not isinstance(data.get(k), list): data[k] = defaults[k]` step
(every list field's default is the empty list). -/
def fixListField (d : JObj) (key : String) : JObj :=
  match lookupJ d key with
  | some (.arr _) => d
  | _ => setJ d key (.arr [])

/-- `_ensure_analysis_keys` on a dict, phase by phase in source order. -/
def ensureObj (d : JObj) : JObj :=
  let d1 := fillAll d analysisDefaults
  let d2 := fixRecord d1 "client_intent" intentDefaults
  let d3 := fixRecord d2 "consult_scorecard" scorecardDefaults
  let d4 := fixListField d3 "topics"
  let d5 := fixListField d4 "strengths"
  let d6 := fixListField d5 "improvements"
  let d7 := fixListField d6 "coaching_tips"
  let d8 := fixListField d7 "conversion_risks"
  let d9 := fixListField d8 "missed_questions"
  let d10 := fixListField d9 "recommended_micro_scripts"
  let d11 := fixListField d10 "timeline"
  d11

/-- `_ensure_analysis_keys`: a non-dict value is returned unchanged. -/
def ensure_analysis_keys : JValue → JValue
  | .obj d => .obj (ensureObj d)
  | v => v

/-! ### src/utils/gemini_client.py — `_question_supported_by_transcript` -/

/-- The fixed stop-word set, exactly as in the source. -/
def stopwords : List String :=
  ["a", "an", "and", "are", "as", "at", "be", "but", "by", "did", "do", "does",
   "for", "from", "had", "has", "have", "he", "her", "hers", "him", "his", "i",
   "if", "in", "is", "it", "its", "me", "my", "not", "of", "on", "or", "our",
   "she", "so", "that", "the", "their", "them", "they", "this", "to", "was",
   "we", "were", "what", "when", "where", "who", "why", "will", "with", "you",
   "your"]

/-- A character of the regex class of lowercase letters, digits and the
apostrophe used to tokenize the question. -/
def tokenChar (c : Char) : Bool :=
  (97 ≤ c.toNat && c.toNat ≤ 122) || pyDigit c || c.toNat = 39

/-- `re.findall` of maximal runs of `p`-characters: worker, `cur` is the
current run (reversed). -/
def runsGo (p : Char → Bool) : List Char → Option (List Char) → List (List Char)
  | [], none => []
  | [], some cur => [cur.reverse]
  | c :: rest, none =>
    if p c then runsGo p rest (some [c]) else runsGo p rest none
  | c :: rest, some cur =>
    if p c then runsGo p rest (some (c :: cur))
    else cur.reverse :: runsGo p rest none

/-- `re.findall(r"[a-z0-9']+", question.lower())`. -/
def question_words (question : String) : List String :=
  (runsGo tokenChar (lowerL question.data) none).map String.mk

/-- `[w for w in words if w not in stopwords and len(w) > 2]`. -/
def question_keywords (question : String) : List String :=
  (question_words question).filter
    (fun w => !(stopwords.contains w) && decide (2 < w.length))

/-- `_question_supported_by_transcript`. -/
def question_supported_by_transcript (transcript question : String) : Bool :=
  if transcript = "" || question = "" then false
  else
    let transcript_lower := lowerL transcript.data
    let keywords := question_keywords question
    if keywords.isEmpty then true
    else keywords.any (fun kw => containsSub kw.data transcript_lower)

/-! ### src/utils/gemini_client.py — `analyze_call`

The construction of the analysis prompt (a pure f-string the claims never
observe) together with the call `model.generate_content(prompt)` and the
`response.text` access are modelled by the parameter `svc`: `.ok text` when
the service produced the response text `text`, `.error e` when any step
inside the `try` block up to and including the response-text access raised
an exception rendered as `e`.  Everything after that point is embedded
statement by statement. -/

/-- The error dictionary `analyze_call` returns from its `except` block:
`error` is the formatted exception message, `raw_response` the response
text when it was assigned before the exception, else `""`. -/
structure AnalysisError where
  error : String
  raw_response : String
deriving DecidableEq, Repr

/-- The message of the `json.JSONDecodeError` CPython raises when the
carved text does not parse; the position suffix CPython appends is elided
by the model. -/
def jsonDecodeMessage : String := "Expecting value"

/-- `analyze_call`, from the completion-service outcome on: extract the
JSON text, parse it, back-fill; any failure becomes the error dictionary. -/
def analyze_call (svc : Except String String) : JValue ⊕ AnalysisError :=
  match svc with
  | .error e => .inr ⟨e, ""⟩
  | .ok text_response =>
    let json_text := (extract_first_json text_response.data).1
    match json_loads (String.mk json_text) with
    | some data => .inl (ensure_analysis_keys data)
    | none => .inr ⟨jsonDecodeMessage, text_response⟩

/-! ### src/utils/gemini_client.py — `chat_with_coach` -/

/-- A history entry, the projection of the session dict onto the three keys
the handler reads; `content` and the entries of `parts` are strings in this
application's session state. -/
structure ChatMsg where
  role : Option String
  content : Option String
  parts : Option (List String)
deriving DecidableEq, Repr

/-- The line the history loop contributes for one message: resolve the
content (falling back to a nonempty `parts` head when `content` is falsy),
skip falsy content, then render by role. -/
def historyLine (m : ChatMsg) : Option String :=
  let content0 := m.content
  let content1 :=
    if content0 = none ∨ content0 = some "" then
      match m.parts with
      | some (p :: _) => some p
      | _ => content0
    else content0
  match content1 with
  | none => none
  | some c =>
    if c = "" then none
    else if m.role = some "user" then some ("User: " ++ c)
    else if m.role = some "assistant" then some ("Coach: " ++ c)
    else none

/-- `str.strip()` on a `String`. -/
def pyStripS (s : String) : String :=
  String.mk (stripL s.data)

/-- The chat system-context template. -/
def chatContext (transcript conversation : String) : String :=
  "\n    You are a Bridal Beauty Consultation Coach for " ++ BRAND_NAME ++ ".\n" ++
  "    Style: " ++ COACHING_STYLE ++ ". Tone: " ++ COACH_TONE ++ ".\n" ++
  "    Answer ONLY from the transcript provided. If the answer is not in the transcript, say: \"That isn't in the transcript.\"\n" ++
  "    Keep replies concise and direct.\n\n" ++
  "    Transcript:\n    " ++ transcript ++ "\n\n" ++
  "    Conversation so far:\n    " ++ conversation ++ "\n\n" ++
  "    Coach response:\n    "

/-- `chat_with_coach`, with the completion service as the parameter `svc`
mapping the composed context to the outcome of
`model.generate_content(...).text`.  A failed gate short-circuits with the
fixed refusal before the service is consulted. -/
def chat_with_coach (svc : String → Except String String)
    (transcript : String) (history : List ChatMsg) (user_input : String) :
    Except String String :=
  if !question_supported_by_transcript transcript user_input then
    .ok "That isn't in the transcript."
  else
    let history_lines := history.filterMap historyLine
    let history_lines2 :=
      if user_input ≠ "" then
        match history_lines.getLast? with
        | none => history_lines ++ ["User: " ++ user_input]
        | some last =>
          if !startsWithL "User:".data last.data then
            history_lines ++ ["User: " ++ user_input]
          else
            let last_user : Option String :=
              match history.getLast? with
              | some m => m.content
              | none => none
            if last_user ≠ some user_input then
              history_lines ++ ["User: " ++ user_input]
            else history_lines
      else history_lines
    let conversation := pyStripS (String.intercalate "\n" history_lines2)
    svc (chatContext transcript conversation)

/-! ## Proof layer -/

/-! ### Token counting (specification side for the metrics claims)

An independent characterisation of `str.split()`'s token count: the number
of positions that start a whitespace-delimited token, i.e. hold a
non-whitespace character whose predecessor is whitespace or the start of
the string. -/

/-- Number of token-start positions; `prevSpace` records whether the
previous character was whitespace (true at the start of the string). -/
def countStarts (prevSpace : Bool) : List Char → Nat
  | [] => 0
  | c :: rest =>
    (if prevSpace && !pySpace c then 1 else 0) + countStarts (pySpace c) rest

lemma pySplitGo_length (l : List Char) :
    ∀ cur : Option (List Char),
      (pySplitGo l cur).length =
        (match cur with
         | none => countStarts true l
         | some _ => 1 + countStarts false l) := by
  induction l with
  | nil => intro cur; cases cur <;> simp [pySplitGo, countStarts]
  | cons c rest ih =>
    intro cur
    cases cur with
    | none =>
      by_cases h : pySpace c = true <;>
        simp [pySplitGo, countStarts, h, ih]
    | some cur =>
      by_cases h : pySpace c = true <;>
        simp [pySplitGo, countStarts, h, ih, Nat.add_comm]

/-- The length of Python's `str.split()` equals the number of
token-start positions. -/
lemma pySplitL_length (l : List Char) :
    (pySplitL l).length = countStarts true l := by
  simpa using pySplitGo_length l none

/-- Claim C8: for every cleanText string, `calculate_metrics` returns a
word count equal to the number of whitespace-delimited tokens (characterised
independently as the number of token-start positions) and an estimated
duration of `word_count / 140` rounded to two decimal places; on the empty
string both are zero. -/
theorem C8_metrics (t : String) :
    (calculate_metrics t).word_count = countStarts true t.data ∧
    (calculate_metrics t).estimated_duration_mins =
      round2 ((countStarts true t.data : Rat) / 140) ∧
    calculate_metrics "" = ⟨0, 0⟩ := by
  refine ⟨?_, ?_, ?_⟩
  · simpa [calculate_metrics] using pySplitL_length t.data
  · simp [calculate_metrics, pySplitL_length t.data]
  · have h : (pySplitL "".data).length = 0 := by decide
    simp only [calculate_metrics, h, Metrics.mk.injEq]
    norm_num [round2, roundHalfEven]

/-- Claim C9: for plain-text input, normalization is the identity on the
content: `parse_txt` returns its argument, and `parse_transcript` on a
`txt` extension yields identical clean and raw text. -/
theorem C9_plain_identity (content : String) :
    parse_txt content = content ∧
    parse_transcript content "txt" = .ok (content, content) := by
  exact ⟨rfl, rfl⟩

/-- Claim C7: the documented VTT scenario: the two cue blocks normalize to
`"Hello there How are you"`, whose metrics are 5 words and an estimated
duration of 0.04 minutes. -/
theorem C7_vtt_scenario :
    parse_vtt "WEBVTT\n\n1\n00:00:00.000 --> 00:00:02.000\nHello there\n\n2\n00:00:02.000 --> 00:00:04.000\nHow are you"
        = "Hello there How are you" ∧
    (calculate_metrics "Hello there How are you").word_count = 5 ∧
    (calculate_metrics "Hello there How are you").estimated_duration_mins = 0.04 := by
  refine ⟨by decide, ?_, ?_⟩
  · have h : (pySplitL "Hello there How are you".data).length = 5 := by decide
    simp [calculate_metrics, h]
  · have h : (pySplitL "Hello there How are you".data).length = 5 := by decide
    simp only [calculate_metrics, h]
    norm_num [round2, roundHalfEven]

/-- Claim C4: whenever the question yields at least one keyword and none of
the keywords occurs in the lowercased transcript, `chat_with_coach` returns
exactly the fixed refusal, for every completion service — the service is
never consulted and cannot influence the result. -/
theorem C4_gate_refusal (svc : String → Except String String)
    (transcript : String) (history : List ChatMsg) (user_input : String)
    (hne : question_keywords user_input ≠ [])
    (hmiss : ∀ kw ∈ question_keywords user_input,
      containsSub kw.data (lowerL transcript.data) = false) :
    chat_with_coach svc transcript history user_input =
      .ok "That isn't in the transcript." := by
  have hgate : question_supported_by_transcript transcript user_input = false := by
    unfold question_supported_by_transcript
    by_cases hz : (transcript = "" || user_input = "") = true
    · simp [hz]
    · simp only [hz, if_false]
      have hkw : (question_keywords user_input).isEmpty = false := by
        cases h : question_keywords user_input with
        | nil => exact absurd h hne
        | cons a l => simp [List.isEmpty]
      simp only [hkw, if_false, Bool.false_eq_true]
      rw [List.any_eq_false]
      intro kw hk
      simp [hmiss kw hk]
  simp [chat_with_coach, hgate]

/-- Claim C4 witness: the gate hypotheses hold for the documented probe
`answer(transcript, [], "asdfqwer")` and the refusal is returned. -/
theorem C4_gate_refusal_witness :
    question_keywords "asdfqwer" ≠ [] ∧
    chat_with_coach (fun _ => .ok "model output") "hello" [] "asdfqwer" =
      .ok "That isn't in the transcript." :=
  ⟨by decide,
   C4_gate_refusal (fun _ => .ok "model output") "hello" [] "asdfqwer"
     (by decide) (by decide)⟩

/-- Claim C6 counterexample: the empty question has an empty keyword set,
yet the gate rejects it on a nonempty transcript (the code short-circuits
on falsy transcript or question before tokenizing), contradicting the
claim that an empty keyword set is always treated as answerable. -/
theorem C6_counterexample :
    question_keywords "" = [] ∧
    question_supported_by_transcript "hello world" "" = false := by
  decide

/-- Claim C6 as amended: for a nonempty transcript and nonempty question,
the gate passes exactly when the keyword set is empty or some keyword
occurs as a substring of the lowercased transcript; an empty transcript or
empty question always fails the gate. -/
theorem C6_gate_characterisation (t q : String) (ht : t ≠ "") (hq : q ≠ "") :
    question_supported_by_transcript t q = true ↔
      (question_keywords q = [] ∨
       ∃ kw ∈ question_keywords q, containsSub kw.data (lowerL t.data) = true) := by
  unfold question_supported_by_transcript
  have hz : (t = "" || q = "") = false := by simp [ht, hq]
  simp only [hz, Bool.false_eq_true, if_false]
  by_cases hk : question_keywords q = []
  · simp [hk]
  · have hne : (question_keywords q).isEmpty = false := by
      cases h : question_keywords q with
      | nil => exact absurd h hk
      | cons a l => simp [List.isEmpty]
    simp [hne, List.any_eq_true, hk]

/-- Claim C6 witness: the amended characterisation applied at a concrete
nonempty transcript and question whose keyword `hello` occurs in the
transcript. -/
theorem C6_gate_witness :
    question_supported_by_transcript "hello world" "hey hello" = true :=
  (C6_gate_characterisation "hello world" "hey hello" (by decide) (by decide)).mpr
    (Or.inr ⟨"hello", by decide, by decide⟩)

/-! ### Claim C3: the kept-line characterisation of the subtitle parsers -/

/-- The lines `parse_vtt` keeps: no header token anywhere in the line, not
blank, no cue-timing prefix, not pure-numeric. -/
def keepVtt (line : List Char) : Bool :=
  !containsSub webvttToken line && !decide (stripL line = []) &&
  !timingMatch '.' line && !isdigitL (stripL line)

/-- The lines `parse_srt` keeps: not blank, not pure-numeric, no cue-timing
prefix. -/
def keepSrt (line : List Char) : Bool :=
  !decide (stripL line = []) && !isdigitL (stripL line) && !timingMatch ',' line

lemma foldl_ifkeep (keep : List Char → Bool) (lines : List (List Char)) :
    ∀ acc, lines.foldl (fun a l => if keep l then a ++ [stripL l] else a) acc =
      acc ++ (lines.filter keep).map stripL := by
  induction lines with
  | nil => intro acc; simp
  | cons hd tl ih =>
    intro acc
    by_cases h : keep hd = true <;>
      simp [List.foldl_cons, h, ih, List.filter_cons]

lemma vttStep_eq (acc : List (List Char)) (line : List Char) :
    (if containsSub webvttToken line then acc
     else if stripL line = [] then acc
     else if timingMatch '.' line then acc
     else if isdigitL (stripL line) then acc
     else acc ++ [stripL line]) =
    (if keepVtt line then acc ++ [stripL line] else acc) := by
  unfold keepVtt
  by_cases h1 : containsSub webvttToken line = true <;>
    by_cases h2 : stripL line = [] <;>
      by_cases h3 : timingMatch '.' line = true <;>
        by_cases h4 : isdigitL (stripL line) = true <;>
          simp [h1, h2, h3, h4]

lemma srtStep_eq (acc : List (List Char)) (line : List Char) :
    (if stripL line = [] then acc
     else if isdigitL (stripL line) then acc
     else if timingMatch ',' line then acc
     else acc ++ [stripL line]) =
    (if keepSrt line then acc ++ [stripL line] else acc) := by
  unfold keepSrt
  by_cases h2 : stripL line = [] <;>
    by_cases h4 : isdigitL (stripL line) = true <;>
      by_cases h3 : timingMatch ',' line = true <;>
        simp [h2, h3, h4]

lemma parseVttL_eq (l : List Char) :
    parseVttL l = joinL [' '] (((splitlinesL l).filter keepVtt).map stripL) := by
  unfold parseVttL
  rw [show (fun (acc : List (List Char)) line =>
      if containsSub webvttToken line then acc
      else if stripL line = [] then acc
      else if timingMatch '.' line then acc
      else if isdigitL (stripL line) then acc
      else acc ++ [stripL line]) =
    (fun acc line => if keepVtt line then acc ++ [stripL line] else acc) from
      funext fun acc => funext fun line => vttStep_eq acc line]
  dsimp only
  rw [foldl_ifkeep]
  simp

lemma parseSrtL_eq (l : List Char) :
    parseSrtL l = joinL [' '] (((splitlinesL l).filter keepSrt).map stripL) := by
  unfold parseSrtL
  rw [show (fun (acc : List (List Char)) line =>
      if stripL line = [] then acc
      else if isdigitL (stripL line) then acc
      else if timingMatch ',' line then acc
      else acc ++ [stripL line]) =
    (fun acc line => if keepSrt line then acc ++ [stripL line] else acc) from
      funext fun acc => funext fun line => srtStep_eq acc line]
  dsimp only
  rw [foldl_ifkeep]
  simp

/-- Claim C3 counterexample: `parse_vtt` drops the non-header line
`"Hello WEBVTT world"` (header-token filtering is by substring, not by
being the header line), and `parse_srt` keeps a literal `WEBVTT` line, so
its cleanText does contain the header token. -/
theorem C3_counterexample :
    parse_vtt "Hello WEBVTT world" = "" ∧ parse_srt "WEBVTT" = "WEBVTT" := by
  decide

/-- Claim C3 as amended: `parse_vtt` drops exactly the lines containing the
header token as a substring, the blank lines, the lines with a cue-timing
prefix and the pure-numeric lines; `parse_srt` drops the same except that
it performs no header filtering.  Every other line is kept, stripped of
surrounding whitespace, in original input order, joined with single
spaces. -/
theorem C3_kept_lines (content : String) :
    parse_vtt content =
      String.mk (joinL [' '] (((splitlinesL content.data).filter keepVtt).map stripL)) ∧
    parse_srt content =
      String.mk (joinL [' '] (((splitlinesL content.data).filter keepSrt).map stripL)) := by
  exact ⟨congrArg String.mk (parseVttL_eq content.data),
         congrArg String.mk (parseSrtL_eq content.data)⟩

/-! ### Dictionary lemmas for the back-fill claims -/

lemma lookupJ_setJ_self (d : JObj) (k : String) (v : JValue) :
    lookupJ (setJ d k v) k = some v := by
  induction d with
  | nil => simp [setJ, lookupJ]
  | cons hd tl ih =>
    obtain ⟨k0, w⟩ := hd
    by_cases h : k0 = k <;> simp [setJ, lookupJ, h, ih]

lemma lookupJ_setJ_ne (d : JObj) (k k' : String) (v : JValue) (h : k ≠ k') :
    lookupJ (setJ d k v) k' = lookupJ d k' := by
  induction d with
  | nil => simp [setJ, lookupJ, h]
  | cons hd tl ih =>
    obtain ⟨k0, w⟩ := hd
    by_cases h0 : k0 = k <;> simp [setJ, lookupJ, h0, h, ih]

lemma setJ_lookup_eq (d : JObj) (k : String) (v : JValue)
    (h : lookupJ d k = some v) : setJ d k v = d := by
  induction d with
  | nil => simp [lookupJ] at h
  | cons hd tl ih =>
    obtain ⟨k0, w⟩ := hd
    by_cases h0 : k0 = k
    · subst h0
      simp [lookupJ] at h
      simp [setJ, h]
    · simp [lookupJ, h0] at h
      simp [setJ, h0, ih h]

/-- `needsFill` is false exactly on present, non-`null` entries. -/
lemma needsFill_eq_false_iff (d : JObj) (k : String) :
    needsFill d k = false ↔ ∃ x, lookupJ d k = some x ∧ x ≠ .null := by
  unfold needsFill
  cases h : lookupJ d k with
  | none => simp
  | some x => cases x <;> simp

lemma fillKey_noop (d : JObj) (kv : String × JValue)
    (h : needsFill d kv.1 = false) : fillKey d kv = d := by
  simp [fillKey, h]

/-- A back-fill step never disturbs a key that is present and non-null. -/
lemma fillKey_frame (d : JObj) (kv : String × JValue) (k : String)
    (h : needsFill d k = false) :
    lookupJ (fillKey d kv) k = lookupJ d k := by
  by_cases he : kv.1 = k
  · subst he
    rw [fillKey_noop d kv h]
  · unfold fillKey
    by_cases hf : needsFill d kv.1 = true
    · simp [hf, lookupJ_setJ_ne _ _ _ _ he]
    · simp [hf]

lemma fillKey_preserves_false (d : JObj) (kv : String × JValue) (k : String)
    (h : needsFill d k = false) : needsFill (fillKey d kv) k = false := by
  unfold needsFill at h ⊢
  rw [fillKey_frame d kv k (by unfold needsFill; exact h)]
  exact h

/-- After a back-fill step with a non-null default, the step's own key is
present and non-null. -/
lemma fillKey_establishes (d : JObj) (kv : String × JValue)
    (hv : kv.2 ≠ .null) : needsFill (fillKey d kv) kv.1 = false := by
  unfold fillKey
  by_cases hf : needsFill d kv.1 = true
  · rw [if_pos hf]
    rw [needsFill_eq_false_iff]
    exact ⟨kv.2, lookupJ_setJ_self _ _ _, hv⟩
  · rw [if_neg hf]
    exact Bool.not_eq_true _ ▸ (Bool.eq_false_iff.mpr hf)

lemma fillAll_frame (ds : JObj) (d : JObj) (k : String)
    (h : needsFill d k = false) :
    lookupJ (fillAll d ds) k = lookupJ d k := by
  induction ds generalizing d with
  | nil => rfl
  | cons kv tl ih =>
    unfold fillAll at *
    rw [List.foldl_cons]
    rw [ih (fillKey d kv) (fillKey_preserves_false d kv k h)]
    exact fillKey_frame d kv k h

lemma fillAll_preserves_false (ds : JObj) (d : JObj) (k : String)
    (h : needsFill d k = false) : needsFill (fillAll d ds) k = false := by
  unfold needsFill at h ⊢
  rw [fillAll_frame ds d k (by unfold needsFill; exact h)]
  exact h

/-- The back-fill loop leaves every key of the defaults dict present and
non-null, provided the defaults themselves are non-null. -/
lemma fillAll_establishes (ds : JObj) (d : JObj) (k : String) (dv : JValue)
    (hnn : ∀ p ∈ ds, p.2 ≠ .null) (hmem : (k, dv) ∈ ds) :
    needsFill (fillAll d ds) k = false := by
  induction ds generalizing d with
  | nil => cases hmem
  | cons kv tl ih =>
    unfold fillAll at *
    rw [List.foldl_cons]
    rcases List.mem_cons.mp hmem with heq | htl
    · have hk : kv.1 = k := by rw [← heq]
      have : needsFill (fillKey d kv) k = false := by
        rw [← hk]
        exact fillKey_establishes d kv (hnn kv (List.mem_cons_self kv tl))
      exact fillAll_preserves_false tl (fillKey d kv) k this
    · exact ih (fillKey d kv) (fun p hp => hnn p (List.mem_cons_of_mem kv hp)) htl

lemma fillAll_lookup_nomem (ds : JObj) (d : JObj) (k : String)
    (h : ∀ p ∈ ds, p.1 ≠ k) :
    lookupJ (fillAll d ds) k = lookupJ d k := by
  induction ds generalizing d with
  | nil => rfl
  | cons kv tl ih =>
    unfold fillAll at *
    rw [List.foldl_cons]
    rw [ih (fillKey d kv) (fun p hp => h p (List.mem_cons_of_mem kv hp))]
    unfold fillKey
    by_cases hf : needsFill d kv.1 = true
    · simp [hf, lookupJ_setJ_ne _ _ _ _ (h kv (List.mem_cons_self kv tl))]
    · simp [hf]

/-- Unfolding equations for the back-fill loop. -/
lemma fillAll_cons (d : JObj) (kv : String × JValue) (tl : JObj) :
    fillAll d (kv :: tl) = fillAll (fillKey d kv) tl := rfl

/-- A key that is absent or null before the back-fill loop receives exactly
its default, assuming the defaults dict has pairwise distinct keys. -/
lemma fillAll_default (ds : JObj) (d : JObj) (k : String) (dv : JValue)
    (hnd : (ds.map Prod.fst).Nodup) (hmem : (k, dv) ∈ ds)
    (h : needsFill d k = true) :
    lookupJ (fillAll d ds) k = some dv := by
  induction ds generalizing d with
  | nil => cases hmem
  | cons kv tl ih =>
    rw [fillAll_cons]
    have hnd' : (tl.map Prod.fst).Nodup := (List.nodup_cons.mp hnd).2
    rcases List.mem_cons.mp hmem with heq | htl
    · subst heq
      have hfirst : lookupJ (fillKey d (k, dv)) k = some dv := by
        unfold fillKey
        simp only [h, if_true]
        exact lookupJ_setJ_self _ _ _
      have hnot : ∀ p ∈ tl, p.1 ≠ k := by
        intro p hp hpk
        have hm : p.1 ∈ tl.map Prod.fst := List.mem_map_of_mem Prod.fst hp
        rw [hpk] at hm
        exact (List.nodup_cons.mp hnd).1 hm
      rw [fillAll_lookup_nomem tl _ k hnot]
      exact hfirst
    · have hkne : kv.1 ≠ k := by
        intro hpk
        have hm : k ∈ tl.map Prod.fst := by
          have := List.mem_map_of_mem Prod.fst htl
          simpa using this
        rw [← hpk] at hm
        exact (List.nodup_cons.mp hnd).1 hm
      have hstep : needsFill (fillKey d kv) k = true := by
        unfold needsFill
        unfold fillKey
        by_cases hf : needsFill d kv.1 = true
        · rw [if_pos hf, lookupJ_setJ_ne _ _ _ _ hkne]
          unfold needsFill at h
          exact h
        · rw [if_neg hf]
          unfold needsFill at h
          exact h
      exact ih _ hnd' htl hstep

lemma fillAll_noop (ds : JObj) (d : JObj)
    (h : ∀ p ∈ ds, needsFill d p.1 = false) : fillAll d ds = d := by
  induction ds with
  | nil => rfl
  | cons kv tl ih =>
    unfold fillAll at *
    rw [List.foldl_cons, fillKey_noop d kv (h kv (List.mem_cons_self kv tl))]
    exact ih (fun p hp => h p (List.mem_cons_of_mem kv hp))

lemma fixRecord_lookup_ne (d : JObj) (key sd_key : String) (sd : JObj)
    (h : key ≠ sd_key) :
    lookupJ (fixRecord d key sd) sd_key = lookupJ d sd_key := by
  unfold fixRecord
  cases hl : lookupJ d key with
  | none => simp [lookupJ_setJ_ne _ _ _ _ h]
  | some v => cases v <;> simp [lookupJ_setJ_ne _ _ _ _ h]

lemma fixRecord_obj (d : JObj) (key : String) (sd : JObj) (sub : JObj)
    (hl : lookupJ d key = some (.obj sub)) :
    fixRecord d key sd = setJ d key (.obj (fillAll sub sd)) := by
  unfold fixRecord
  rw [hl]

lemma fixRecord_lookup_self (d : JObj) (key : String) (sd : JObj) :
    ∃ s, lookupJ (fixRecord d key sd) key = some (.obj s) := by
  unfold fixRecord
  cases hl : lookupJ d key with
  | none => exact ⟨sd, lookupJ_setJ_self _ _ _⟩
  | some v =>
    cases v <;>
      first
        | exact ⟨sd, lookupJ_setJ_self _ _ _⟩
        | (rename_i sub; exact ⟨fillAll sub sd, lookupJ_setJ_self _ _ _⟩)

lemma fixListField_lookup_ne (d : JObj) (key k : String) (h : key ≠ k) :
    lookupJ (fixListField d key) k = lookupJ d k := by
  unfold fixListField
  cases hl : lookupJ d key with
  | none => simp [lookupJ_setJ_ne _ _ _ _ h]
  | some v => cases v <;> simp [lookupJ_setJ_ne _ _ _ _ h]

lemma fixListField_arr (d : JObj) (key : String) (xs : List JValue)
    (hl : lookupJ d key = some (.arr xs)) : fixListField d key = d := by
  unfold fixListField
  rw [hl]

lemma fixListField_lookup_self (d : JObj) (key : String) :
    ∃ xs, lookupJ (fixListField d key) key = some (.arr xs) := by
  unfold fixListField
  cases hl : lookupJ d key with
  | none => exact ⟨[], lookupJ_setJ_self _ _ _⟩
  | some v =>
    cases v <;>
      first
        | (rename_i xs; exact ⟨xs, hl⟩)
        | exact ⟨[], lookupJ_setJ_self _ _ _⟩

/-! ### The phase decomposition of `_ensure_analysis_keys` -/

/-- The list-typed schema fields, in the order the source checks them. -/
def listFieldKeys : List String :=
  ["topics", "strengths", "improvements", "coaching_tips", "conversion_risks",
   "missed_questions", "recommended_micro_scripts", "timeline"]

/-- Phases 2-11 of `_ensure_analysis_keys`: the two sub-record fixes, then
the eight list-type fixes in source order. -/
def ensurePost (d1 : JObj) : JObj :=
  listFieldKeys.foldl fixListField
    (fixRecord (fixRecord d1 "client_intent" intentDefaults)
      "consult_scorecard" scorecardDefaults)

lemma ensureObj_eq (d : JObj) :
    ensureObj d = ensurePost (fillAll d analysisDefaults) := by
  unfold ensureObj ensurePost
  simp only [listFieldKeys, List.foldl]

lemma foldl_fix_lookup_nomem (ks : List String) (d : JObj) (k : String)
    (h : k ∉ ks) :
    lookupJ (ks.foldl fixListField d) k = lookupJ d k := by
  induction ks generalizing d with
  | nil => rfl
  | cons k0 tl ih =>
    rw [List.foldl_cons]
    have hne : k0 ≠ k := fun he => h (he ▸ List.mem_cons_self k0 tl)
    rw [ih (fixListField d k0) (fun hm => h (List.mem_cons_of_mem k0 hm))]
    exact fixListField_lookup_ne d k0 k hne

lemma foldl_fix_arr_preserved (ks : List String) (d : JObj) (k : String)
    (xs : List JValue) (h : lookupJ d k = some (.arr xs)) :
    lookupJ (ks.foldl fixListField d) k = some (.arr xs) := by
  induction ks generalizing d with
  | nil => exact h
  | cons k0 tl ih =>
    rw [List.foldl_cons]
    by_cases he : k0 = k
    · subst he
      rw [fixListField_arr d k0 xs h]
      exact ih d h
    · refine ih (fixListField d k0) ?_
      rw [fixListField_lookup_ne d k0 k he]
      exact h

lemma foldl_fix_establishes (ks : List String) (d : JObj) (k : String)
    (h : k ∈ ks) :
    ∃ xs, lookupJ (ks.foldl fixListField d) k = some (.arr xs) := by
  induction ks generalizing d with
  | nil => cases h
  | cons k0 tl ih =>
    rw [List.foldl_cons]
    by_cases he : k0 = k
    · subst he
      obtain ⟨xs, hxs⟩ := fixListField_lookup_self d k0
      exact ⟨xs, foldl_fix_arr_preserved tl _ k0 xs hxs⟩
    · exact ih (fixListField d k0) (List.mem_cons.mp h |>.resolve_left (fun hh => he hh.symm))

/-- Phases 2-11 do not touch keys other than the two sub-records and the
eight list fields. -/
lemma ensurePost_frame (d1 : JObj) (k : String)
    (h1 : k ≠ "client_intent") (h2 : k ≠ "consult_scorecard")
    (h3 : k ∉ listFieldKeys) :
    lookupJ (ensurePost d1) k = lookupJ d1 k := by
  unfold ensurePost
  rw [foldl_fix_lookup_nomem _ _ _ h3,
      fixRecord_lookup_ne _ _ _ _ (fun h => h2 h.symm),
      fixRecord_lookup_ne _ _ _ _ (fun h => h1 h.symm)]

lemma needsFill_congr (d d' : JObj) (k : String)
    (h : lookupJ d' k = lookupJ d k) : needsFill d' k = needsFill d k := by
  unfold needsFill
  rw [h]

lemma fixRecord_default (d : JObj) (key : String) (sd : JObj)
    (h : ∀ sub, lookupJ d key ≠ some (.obj sub)) :
    fixRecord d key sd = setJ d key (.obj sd) := by
  unfold fixRecord
  cases hl : lookupJ d key with
  | none => rfl
  | some v => cases v <;> first | (exfalso; exact h _ hl) | rfl

lemma ensurePost_lookup_ci (d1 : JObj) :
    lookupJ (ensurePost d1) "client_intent" =
      lookupJ (fixRecord d1 "client_intent" intentDefaults) "client_intent" := by
  unfold ensurePost
  rw [foldl_fix_lookup_nomem _ _ _ (by decide),
      fixRecord_lookup_ne _ _ _ _ (by decide)]

lemma ensurePost_lookup_sc (d1 : JObj) :
    lookupJ (ensurePost d1) "consult_scorecard" =
      lookupJ (fixRecord (fixRecord d1 "client_intent" intentDefaults)
        "consult_scorecard" scorecardDefaults) "consult_scorecard" := by
  unfold ensurePost
  rw [foldl_fix_lookup_nomem _ _ _ (by decide)]

lemma ensurePost_intent_obj (d1 : JObj) (sub : JObj)
    (hl : lookupJ d1 "client_intent" = some (.obj sub)) :
    lookupJ (ensurePost d1) "client_intent" =
      some (.obj (fillAll sub intentDefaults)) := by
  rw [ensurePost_lookup_ci, fixRecord_obj _ _ _ _ hl]
  exact lookupJ_setJ_self _ _ _

lemma ensurePost_intent_default (d1 : JObj)
    (h : ∀ sub, lookupJ d1 "client_intent" ≠ some (.obj sub)) :
    lookupJ (ensurePost d1) "client_intent" = some (.obj intentDefaults) := by
  rw [ensurePost_lookup_ci, fixRecord_default _ _ _ h]
  exact lookupJ_setJ_self _ _ _

lemma ensurePost_scorecard_obj (d1 : JObj) (sub : JObj)
    (hl : lookupJ d1 "consult_scorecard" = some (.obj sub)) :
    lookupJ (ensurePost d1) "consult_scorecard" =
      some (.obj (fillAll sub scorecardDefaults)) := by
  rw [ensurePost_lookup_sc]
  have hl2 : lookupJ (fixRecord d1 "client_intent" intentDefaults)
      "consult_scorecard" = some (.obj sub) := by
    rw [fixRecord_lookup_ne _ _ _ _ (by decide)]
    exact hl
  rw [fixRecord_obj _ _ _ _ hl2]
  exact lookupJ_setJ_self _ _ _

lemma ensurePost_scorecard_default (d1 : JObj)
    (h : ∀ sub, lookupJ d1 "consult_scorecard" ≠ some (.obj sub)) :
    lookupJ (ensurePost d1) "consult_scorecard" = some (.obj scorecardDefaults) := by
  rw [ensurePost_lookup_sc]
  have h2 : ∀ sub, lookupJ (fixRecord d1 "client_intent" intentDefaults)
      "consult_scorecard" ≠ some (.obj sub) := by
    intro sub hsub
    rw [fixRecord_lookup_ne _ _ _ _ (by decide)] at hsub
    exact h sub hsub
  rw [fixRecord_default _ _ _ h2]
  exact lookupJ_setJ_self _ _ _

lemma ensurePost_arr_preserved (d1 : JObj) (k : String) (xs : List JValue)
    (h1 : k ≠ "client_intent") (h2 : k ≠ "consult_scorecard")
    (hl : lookupJ d1 k = some (.arr xs)) :
    lookupJ (ensurePost d1) k = some (.arr xs) := by
  unfold ensurePost
  refine foldl_fix_arr_preserved _ _ _ _ ?_
  rw [fixRecord_lookup_ne _ _ _ _ (fun h => h2 h.symm),
      fixRecord_lookup_ne _ _ _ _ (fun h => h1 h.symm)]
  exact hl

lemma ensurePost_arr_establishes (d1 : JObj) (k : String)
    (hk : k ∈ listFieldKeys) :
    ∃ xs, lookupJ (ensurePost d1) k = some (.arr xs) :=
  foldl_fix_establishes _ _ _ hk

/-! ### The invariant established by `_ensure_analysis_keys` -/

/-- Every key of the sub-defaults dict is present and non-null in `s`. -/
def subGood (s sd : JObj) : Prop :=
  ∀ p ∈ sd, needsFill s p.1 = false

/-- The full post-validation invariant: all twelve schema fields present
and non-null, the two sub-records are fully back-filled dicts, the eight
list fields hold lists. -/
def goodTop (d : JObj) : Prop :=
  (∀ p ∈ analysisDefaults, needsFill d p.1 = false) ∧
  (∃ s, lookupJ d "client_intent" = some (.obj s) ∧ subGood s intentDefaults) ∧
  (∃ s, lookupJ d "consult_scorecard" = some (.obj s) ∧ subGood s scorecardDefaults) ∧
  (∀ k ∈ listFieldKeys, ∃ xs, lookupJ d k = some (.arr xs))

lemma analysisDefaults_nonnull : ∀ p ∈ analysisDefaults, p.2 ≠ JValue.null := by
  intro p hp
  simp [analysisDefaults] at hp
  rcases hp with h|h|h|h|h|h|h|h|h|h|h|h <;> subst h <;> simp

lemma intentDefaults_nonnull : ∀ p ∈ intentDefaults, p.2 ≠ JValue.null := by
  intro p hp
  simp [intentDefaults] at hp
  rcases hp with h|h|h|h <;> subst h <;> simp

lemma scorecardDefaults_nonnull : ∀ p ∈ scorecardDefaults, p.2 ≠ JValue.null := by
  intro p hp
  simp [scorecardDefaults] at hp
  rcases hp with h|h|h|h|h|h|h <;> subst h <;> simp

lemma intent_selfGood : subGood intentDefaults intentDefaults := by
  intro p hp
  simp [intentDefaults] at hp
  rcases hp with h|h|h|h <;> subst h <;> decide

lemma scorecard_selfGood : subGood scorecardDefaults scorecardDefaults := by
  intro p hp
  simp [scorecardDefaults] at hp
  rcases hp with h|h|h|h|h|h|h <;> subst h <;> decide

/-- After `_ensure_analysis_keys`, the invariant always holds. -/
lemma goodTop_ensureObj (d : JObj) : goodTop (ensureObj d) := by
  rw [ensureObj_eq]
  have F1 : ∀ p ∈ analysisDefaults,
      needsFill (fillAll d analysisDefaults) p.1 = false := by
    intro p hp
    exact fillAll_establishes _ _ p.1 p.2 analysisDefaults_nonnull hp
  have Hci : ∃ s, lookupJ (ensurePost (fillAll d analysisDefaults))
      "client_intent" = some (.obj s) ∧ subGood s intentDefaults := by
    cases hl : lookupJ (fillAll d analysisDefaults) "client_intent" with
    | none =>
      refine ⟨intentDefaults, ensurePost_intent_default _ ?_, intent_selfGood⟩
      intro s h
      rw [hl] at h
      cases h
    | some v =>
      cases v
      case obj sub =>
        refine ⟨fillAll sub intentDefaults, ensurePost_intent_obj _ sub hl, ?_⟩
        intro p hp
        exact fillAll_establishes _ _ p.1 p.2 intentDefaults_nonnull hp
      all_goals
        refine ⟨intentDefaults, ensurePost_intent_default _ ?_, intent_selfGood⟩
      all_goals
        intro s h
      all_goals
        rw [hl] at h
      all_goals
        exact JValue.noConfusion (Option.some.inj h)
  have Hsc : ∃ s, lookupJ (ensurePost (fillAll d analysisDefaults))
      "consult_scorecard" = some (.obj s) ∧ subGood s scorecardDefaults := by
    cases hl : lookupJ (fillAll d analysisDefaults) "consult_scorecard" with
    | none =>
      refine ⟨scorecardDefaults, ensurePost_scorecard_default _ ?_, scorecard_selfGood⟩
      intro s h
      rw [hl] at h
      cases h
    | some v =>
      cases v
      case obj sub =>
        refine ⟨fillAll sub scorecardDefaults, ensurePost_scorecard_obj _ sub hl, ?_⟩
        intro p hp
        exact fillAll_establishes _ _ p.1 p.2 scorecardDefaults_nonnull hp
      all_goals
        refine ⟨scorecardDefaults, ensurePost_scorecard_default _ ?_, scorecard_selfGood⟩
      all_goals
        intro s h
      all_goals
        rw [hl] at h
      all_goals
        exact JValue.noConfusion (Option.some.inj h)
  have Harr : ∀ k ∈ listFieldKeys,
      ∃ xs, lookupJ (ensurePost (fillAll d analysisDefaults)) k = some (.arr xs) :=
    fun k hk => ensurePost_arr_establishes _ k hk
  refine ⟨?_, Hci, Hsc, Harr⟩
  intro p hp
  by_cases h1 : p.1 = "client_intent"
  · obtain ⟨s, hs, _⟩ := Hci
    rw [needsFill_eq_false_iff, h1]
    exact ⟨.obj s, hs, by simp⟩
  · by_cases h2 : p.1 = "consult_scorecard"
    · obtain ⟨s, hs, _⟩ := Hsc
      rw [needsFill_eq_false_iff, h2]
      exact ⟨.obj s, hs, by simp⟩
    · by_cases h3 : p.1 ∈ listFieldKeys
      · obtain ⟨xs, hxs⟩ := Harr p.1 h3
        rw [needsFill_eq_false_iff]
        exact ⟨.arr xs, hxs, by simp⟩
      · rw [needsFill_congr _ _ _ (ensurePost_frame _ p.1 h1 h2 h3)]
        exact F1 p hp

/-- On records already satisfying the invariant, `_ensure_analysis_keys`
is the identity. -/
lemma ensureObj_noop (d : JObj) (hg : goodTop d) : ensureObj d = d := by
  obtain ⟨hall, ⟨sci, hci, hsci⟩, ⟨ssc, hsc, hssc⟩, harr⟩ := hg
  rw [ensureObj_eq]
  rw [fillAll_noop analysisDefaults d hall]
  unfold ensurePost
  rw [fixRecord_obj d _ _ _ hci, fillAll_noop _ _ hsci, setJ_lookup_eq d _ _ hci]
  rw [fixRecord_obj d _ _ _ hsc, fillAll_noop _ _ hssc, setJ_lookup_eq d _ _ hsc]
  have hgen : ∀ ks : List String,
      (∀ k ∈ ks, ∃ xs, lookupJ d k = some (.arr xs)) →
      ks.foldl fixListField d = d := by
    intro ks
    induction ks with
    | nil => intro _; rfl
    | cons k0 tl ih =>
      intro h
      rw [List.foldl_cons]
      obtain ⟨xs, hxs⟩ := h k0 (List.mem_cons_self k0 tl)
      rw [fixListField_arr d k0 xs hxs]
      exact ih (fun k hk => h k (List.mem_cons_of_mem k0 hk))
  exact hgen listFieldKeys harr

/-- Claim C5: the validation back-fill is idempotent — applying
`_ensure_analysis_keys` twice yields the same value as applying it once,
for every parsed value (dict or not). -/
theorem C5_backfill_idempotent (v : JValue) :
    ensure_analysis_keys (ensure_analysis_keys v) = ensure_analysis_keys v := by
  cases v
  case obj d =>
    exact congrArg JValue.obj (ensureObj_noop (ensureObj d) (goodTop_ensureObj d))
  all_goals rfl

/-- Claim C2 counterexample: the response `"5"` contains no brace pair,
yet `analyze_call` does not return an error — the cleaned text itself
parses as JSON and the number is returned as the result. -/
theorem C2_counterexample :
    containsSub [obrace] "5".data = false ∧
    containsSub [cbrace] "5".data = false ∧
    analyze_call (.ok "5") = .inl (.num 5 0) :=
  ⟨rfl, rfl, rfl⟩

/-- Claim C2 as amended: `analyze_call` is a total function (no exception
escapes the boundary); when the completion call itself fails it returns the
error value carrying the exception message and no raw text, and whenever
the carved substring — or, when no brace pair is located, the cleaned text
itself — fails to parse as JSON, it returns the error value carrying a
message and the raw response text. -/
theorem C2_analysis_errors :
    (∀ e : String, analyze_call (.error e) = .inr ⟨e, ""⟩) ∧
    (∀ resp : String,
      json_loads (String.mk (extract_first_json resp.data).1) = none →
      analyze_call (.ok resp) = .inr ⟨jsonDecodeMessage, resp⟩) := by
  refine ⟨fun e => rfl, fun resp h => ?_⟩
  simp only [analyze_call, h]

/-- Claim C2 witness: both error paths at concrete inputs — a failed
completion call, and the unparsable response `"hello"`. -/
theorem C2_analysis_errors_witness :
    analyze_call (.error "quota exceeded") = .inr ⟨"quota exceeded", ""⟩ ∧
    analyze_call (.ok "hello") = .inr ⟨jsonDecodeMessage, "hello"⟩ :=
  ⟨C2_analysis_errors.1 "quota exceeded", C2_analysis_errors.2 "hello" rfl⟩

/-! ### Claim C1: the validated result always carries the full schema -/

lemma analysisDefaults_keys_nodup : (analysisDefaults.map Prod.fst).Nodup := by
  decide

lemma intentDefaults_keys_nodup : (intentDefaults.map Prod.fst).Nodup := by
  decide

lemma scorecardDefaults_keys_nodup : (scorecardDefaults.map Prod.fst).Nodup := by
  decide

/-- A field is present (under any value) in a parsed record. -/
def hasFieldB (v : JValue) (k : String) : Bool :=
  match v with
  | .obj fs => (lookupJ fs k).isSome
  | _ => false

/-- Every schema field, including the sub-fields of the two sub-records,
is present and non-null. -/
def hasAllSchemaFields (e : JObj) : Prop :=
  (∀ p ∈ analysisDefaults, ∃ x, lookupJ e p.1 = some x ∧ x ≠ .null) ∧
  (∃ s, lookupJ e "client_intent" = some (.obj s) ∧
    ∀ p ∈ intentDefaults, ∃ x, lookupJ s p.1 = some x ∧ x ≠ .null) ∧
  (∃ s, lookupJ e "consult_scorecard" = some (.obj s) ∧
    ∀ p ∈ scorecardDefaults, ∃ x, lookupJ s p.1 = some x ∧ x ≠ .null)

lemma hasAll_of_goodTop (e : JObj) (hg : goodTop e) : hasAllSchemaFields e := by
  obtain ⟨hall, ⟨s, hs, hsub⟩, ⟨t, ht, htsub⟩, _⟩ := hg
  exact ⟨fun p hp => (needsFill_eq_false_iff _ _).mp (hall p hp),
         ⟨s, hs, fun p hp => (needsFill_eq_false_iff _ _).mp (hsub p hp)⟩,
         ⟨t, ht, fun p hp => (needsFill_eq_false_iff _ _).mp (htsub p hp)⟩⟩

/-- A top-level schema field that is absent or null in the parsed record is
replaced by exactly its documented default. -/
lemma ensureObj_default (d : JObj) :
    ∀ p ∈ analysisDefaults, needsFill d p.1 = true →
      lookupJ (ensureObj d) p.1 = some p.2 := by
  intro p hp h
  have h1 : lookupJ (fillAll d analysisDefaults) p.1 = some p.2 :=
    fillAll_default _ _ _ _ analysisDefaults_keys_nodup hp h
  rw [ensureObj_eq]
  simp [analysisDefaults] at hp
  rcases hp with hh|hh|hh|hh|hh|hh|hh|hh|hh|hh|hh|hh <;> subst hh
  · rw [ensurePost_frame _ _ (by decide) (by decide) (by decide)]
    exact h1
  · exact ensurePost_arr_preserved _ _ _ (by decide) (by decide) h1
  · rw [ensurePost_frame _ _ (by decide) (by decide) (by decide)]
    exact h1
  · exact ensurePost_arr_preserved _ _ _ (by decide) (by decide) h1
  · exact ensurePost_arr_preserved _ _ _ (by decide) (by decide) h1
  · exact ensurePost_arr_preserved _ _ _ (by decide) (by decide) h1
  · have h2 := ensurePost_intent_obj (fillAll d analysisDefaults) intentDefaults h1
    rw [fillAll_noop _ _ intent_selfGood] at h2
    exact h2
  · have h2 := ensurePost_scorecard_obj (fillAll d analysisDefaults) scorecardDefaults h1
    rw [fillAll_noop _ _ scorecard_selfGood] at h2
    exact h2
  · exact ensurePost_arr_preserved _ _ _ (by decide) (by decide) h1
  · exact ensurePost_arr_preserved _ _ _ (by decide) (by decide) h1
  · exact ensurePost_arr_preserved _ _ _ (by decide) (by decide) h1
  · exact ensurePost_arr_preserved _ _ _ (by decide) (by decide) h1

/-- When the parsed `client_intent` is a dict, the validated value is that
dict back-filled with the sub-defaults. -/
lemma ensureObj_intent_sub (d sub : JObj)
    (hl : lookupJ d "client_intent" = some (.obj sub)) :
    lookupJ (ensureObj d) "client_intent" =
      some (.obj (fillAll sub intentDefaults)) := by
  rw [ensureObj_eq]
  apply ensurePost_intent_obj
  rw [fillAll_frame _ _ _ ((needsFill_eq_false_iff _ _).mpr ⟨_, hl, by simp⟩)]
  exact hl

/-- When the parsed `consult_scorecard` is a dict, the validated value is
that dict back-filled with the sub-defaults. -/
lemma ensureObj_scorecard_sub (d sub : JObj)
    (hl : lookupJ d "consult_scorecard" = some (.obj sub)) :
    lookupJ (ensureObj d) "consult_scorecard" =
      some (.obj (fillAll sub scorecardDefaults)) := by
  rw [ensureObj_eq]
  apply ensurePost_scorecard_obj
  rw [fillAll_frame _ _ _ ((needsFill_eq_false_iff _ _).mpr ⟨_, hl, by simp⟩)]
  exact hl

/-- Claim C1 counterexample: the response `"[]"` parses successfully as a
JSON value, yet the returned result is the bare array, which carries no
schema field at all — the invariant only holds when the parsed value is a
JSON object. -/
theorem C1_counterexample :
    json_loads (String.mk (extract_first_json "[]".data).1) = some (.arr []) ∧
    analyze_call (.ok "[]") = .inl (.arr []) ∧
    hasFieldB (.arr []) "summary" = false :=
  ⟨rfl, rfl, rfl⟩

/-- Claim C1 as amended: for every completion-service response from which a
JSON object is successfully parsed, the returned result is that object
back-filled: every schema field (including the sub-fields of
`client_intent` and `consult_scorecard`) is present and non-null, every
top-level field absent or null in the parsed object carries exactly its
documented default, and an absent-or-null sub-field of a parsed sub-record
dict carries its sub-default.  In particular the fenced response containing
only a summary key yields the fully defaulted record with that summary. -/
theorem C1_validated_schema :
    (∀ (resp : String) (d : JObj),
      json_loads (String.mk (extract_first_json resp.data).1) = some (.obj d) →
      analyze_call (.ok resp) = .inl (.obj (ensureObj d)) ∧
      hasAllSchemaFields (ensureObj d) ∧
      (∀ p ∈ analysisDefaults, needsFill d p.1 = true →
        lookupJ (ensureObj d) p.1 = some p.2) ∧
      (∀ sub, lookupJ d "client_intent" = some (.obj sub) →
        lookupJ (ensureObj d) "client_intent" =
          some (.obj (fillAll sub intentDefaults)) ∧
        ∀ p ∈ intentDefaults, needsFill sub p.1 = true →
          lookupJ (fillAll sub intentDefaults) p.1 = some p.2) ∧
      (∀ sub, lookupJ d "consult_scorecard" = some (.obj sub) →
        lookupJ (ensureObj d) "consult_scorecard" =
          some (.obj (fillAll sub scorecardDefaults)) ∧
        ∀ p ∈ scorecardDefaults, needsFill sub p.1 = true →
          lookupJ (fillAll sub scorecardDefaults) p.1 = some p.2)) ∧
    analyze_call (.ok "```json\n\x7b\"summary\": \"ok\"\x7d\n```") =
      .inl (.obj
        [("summary", .str "ok"),
         ("topics", .arr []),
         ("sentiment_score", .num 0 0),
         ("strengths", .arr []),
         ("improvements", .arr []),
         ("coaching_tips", .arr []),
         ("client_intent", .obj intentDefaults),
         ("consult_scorecard", .obj scorecardDefaults),
         ("conversion_risks", .arr []),
         ("missed_questions", .arr []),
         ("recommended_micro_scripts", .arr []),
         ("timeline", .arr [])]) := by
  constructor
  · intro resp d h
    refine ⟨by simp [analyze_call, h, ensure_analysis_keys], ?_, ?_, ?_, ?_⟩
    · exact hasAll_of_goodTop _ (goodTop_ensureObj d)
    · exact ensureObj_default d
    · intro sub hl
      exact ⟨ensureObj_intent_sub d sub hl,
        fun p hp hn => fillAll_default _ _ _ _ intentDefaults_keys_nodup hp hn⟩
    · intro sub hl
      exact ⟨ensureObj_scorecard_sub d sub hl,
        fun p hp hn => fillAll_default _ _ _ _ scorecardDefaults_keys_nodup hp hn⟩
  · rfl

/-- Claim C1 witness: the amended theorem applied to a concrete response
whose parsed object has a null `topics` field and a partial
`client_intent` dict: the null field receives its default and the missing
sub-field its sub-default. -/
theorem C1_validated_schema_witness :
    analyze_call (.ok "\x7b\"topics\": null, \"client_intent\": \x7b\"occasion\": \"wedding\"\x7d\x7d") =
      .inl (.obj (ensureObj
        [("topics", .null),
         ("client_intent", .obj [("occasion", .str "wedding")])])) ∧
    lookupJ (ensureObj
        [("topics", .null),
         ("client_intent", .obj [("occasion", .str "wedding")])]) "topics" =
      some (.arr []) := by
  have h := (C1_validated_schema.1
    "\x7b\"topics\": null, \"client_intent\": \x7b\"occasion\": \"wedding\"\x7d\x7d"
    [("topics", .null), ("client_intent", .obj [("occasion", .str "wedding")])]
    rfl)
  refine ⟨h.1, ?_⟩
  have := h.2.2.1 ("topics", .arr []) (by simp [analysisDefaults]) (by rfl)
  exact this

/-- Claim C10: the back-fill frame condition.  A list field already
holding a list, the string-typed `summary`, and the integer-typed
`sentiment_score` are returned unchanged when present and non-null; every
present, non-null entry of a parsed `client_intent` or `consult_scorecard`
dict is returned unchanged inside the validated sub-record; writes are
confined to missing, null, or wrongly-typed fields; a non-dict input is
returned unchanged. -/
theorem C10_backfill_frame :
    (∀ (d : JObj) (k : String) (xs : List JValue), k ∈ listFieldKeys →
      lookupJ d k = some (.arr xs) → lookupJ (ensureObj d) k = some (.arr xs)) ∧
    (∀ (d : JObj) (s : String), lookupJ d "summary" = some (.str s) →
      lookupJ (ensureObj d) "summary" = some (.str s)) ∧
    (∀ (d : JObj) (m e : Int), lookupJ d "sentiment_score" = some (.num m e) →
      lookupJ (ensureObj d) "sentiment_score" = some (.num m e)) ∧
    (∀ (d sub : JObj), lookupJ d "client_intent" = some (.obj sub) →
      ∃ s2, lookupJ (ensureObj d) "client_intent" = some (.obj s2) ∧
        ∀ (k : String) (x : JValue), lookupJ sub k = some x → x ≠ .null →
          lookupJ s2 k = some x) ∧
    (∀ (d sub : JObj), lookupJ d "consult_scorecard" = some (.obj sub) →
      ∃ s2, lookupJ (ensureObj d) "consult_scorecard" = some (.obj s2) ∧
        ∀ (k : String) (x : JValue), lookupJ sub k = some x → x ≠ .null →
          lookupJ s2 k = some x) ∧
    (∀ v : JValue, (∀ fs : JObj, v ≠ .obj fs) → ensure_analysis_keys v = v) := by
  refine ⟨?_, ?_, ?_, ?_, ?_, ?_⟩
  · intro d k xs hk hl
    rw [ensureObj_eq]
    have hne1 : k ≠ "client_intent" := by
      intro he
      subst he
      revert hk
      decide
    have hne2 : k ≠ "consult_scorecard" := by
      intro he
      subst he
      revert hk
      decide
    apply ensurePost_arr_preserved _ _ _ hne1 hne2
    rw [fillAll_frame _ _ _ ((needsFill_eq_false_iff _ _).mpr ⟨_, hl, by simp⟩)]
    exact hl
  · intro d s hl
    rw [ensureObj_eq, ensurePost_frame _ _ (by decide) (by decide) (by decide),
        fillAll_frame _ _ _ ((needsFill_eq_false_iff _ _).mpr ⟨_, hl, by simp⟩)]
    exact hl
  · intro d m e hl
    rw [ensureObj_eq, ensurePost_frame _ _ (by decide) (by decide) (by decide),
        fillAll_frame _ _ _ ((needsFill_eq_false_iff _ _).mpr ⟨_, hl, by simp⟩)]
    exact hl
  · intro d sub hl
    refine ⟨fillAll sub intentDefaults, ensureObj_intent_sub d sub hl, ?_⟩
    intro k x hx hnx
    rw [fillAll_frame _ _ _ ((needsFill_eq_false_iff _ _).mpr ⟨x, hx, hnx⟩)]
    exact hx
  · intro d sub hl
    refine ⟨fillAll sub scorecardDefaults, ensureObj_scorecard_sub d sub hl, ?_⟩
    intro k x hx hnx
    rw [fillAll_frame _ _ _ ((needsFill_eq_false_iff _ _).mpr ⟨x, hx, hnx⟩)]
    exact hx
  · intro v hv
    cases v
    case obj fs => exact absurd rfl (hv fs)
    all_goals rfl

/-- Claim C10 witness: a list field already holding a list is preserved
verbatim, and a non-dict value passes through untouched. -/
theorem C10_backfill_frame_witness :
    lookupJ (ensureObj [("topics", .arr [.str "pricing"])]) "topics" =
      some (.arr [.str "pricing"]) ∧
    ensure_analysis_keys (.str "oops") = .str "oops" :=
  ⟨C10_backfill_frame.1 [("topics", .arr [.str "pricing"])] "topics"
      [.str "pricing"] (by decide) rfl,
   C10_backfill_frame.2.2.2.2.2 (.str "oops") (fun fs h => JValue.noConfusion h)⟩
